import Mathlib

/-!
Verification of the connection-serving core of the Go-rpc repository
(`server.go` and the `codec` package declarations), as a shallow embedding.

The embedding models one connection.  The bytes arriving on the wire are
abstracted into a script: a list of `InEvent`s, one per call of the read
loop, each saying what `cc.ReadHeader` / `cc.ReadBody` would yield at that
point and whether the matching `cc.Write` of the response succeeds.  The
functions `readRequestHeader`, `readRequest`, `sendResponse`,
`handleRequest`, `serveCodecLoop` and `ServeConn` below are direct
translations of the Go functions of the same names.

A second, small-step operational model (`SState`, `Step`) captures the
concurrency of `serveCodec`: one goroutine per request, a `sync.Mutex`
(`sending`) serializing response writes, and a `sync.WaitGroup` joined
before `cc.Close()`.  It is used for the temporal claims (drain before
close, no interleaved response bytes).
-/

namespace GoRpc

/-- `codec.Header`: service method, client-chosen sequence number, error
string (empty means no error).  `Seq` is a `uint64`; we use `Nat`, its
values on a real wire are below `2 ^ 64`. -/
structure Header where
  serviceMethod : String
  seq : Nat
  error : String
deriving DecidableEq, Repr

/-- `codec.Type` is a string identifier. -/
def GobType : String := "application/gob"

/-- `codec.JsonType`, declared but never registered ("not implemented"). -/
def JsonType : String := "application/json"

/-- The keys of `codec.NewCodecFuncMap` after `init()` runs: only the gob
codec constructor is registered. -/
def NewCodecFuncMap : List String := [GobType]

/-- `f := NewCodecFuncMap[opt.CodecType]; f == nil` test, as key lookup. -/
def codecRegistered (t : String) : Bool := NewCodecFuncMap.contains t

/-- `MagicNumber = 0x3bef5c`. -/
def MagicNumber : Nat := 0x3bef5c

/-- The `Option` struct of `server.go` (handshake record).  Named with a
prime because `Option` is taken in Lean. -/
structure Option' where
  magicNumber : Nat
  codecType : String
deriving DecidableEq, Repr

/-- Error classes `cc.ReadHeader` can produce: `io.EOF`,
`io.ErrUnexpectedEOF`, or anything else. -/
inductive ReadErr where
  | eof
  | unexpectedEOF
  | other (m : String)
deriving DecidableEq, Repr

/-- `err.Error()` for the modelled read errors. -/
def ReadErr.msg : ReadErr → String
  | .eof => "EOF"
  | .unexpectedEOF => "unexpected EOF"
  | .other m => m

/-- One iteration of the read loop, as seen at the codec interface:
either `ReadHeader` yields a header (`frame`, with `bodyOk` telling
whether the following `ReadBody` succeeds and `writeOk` whether the
`cc.Write` of this request's response succeeds), or `ReadHeader` fails
with a given error. -/
inductive InEvent where
  | frame (h : Header) (bodyOk : Bool) (body : String) (writeOk : Bool)
  | headerFail (e : ReadErr)
deriving DecidableEq, Repr

def InEvent.isFrame : InEvent → Bool
  | .frame _ _ _ _ => true
  | .headerFail _ => false

def InEvent.writeOk : InEvent → Bool
  | .frame _ _ _ w => w
  | .headerFail _ => true

def InEvent.evHeader : InEvent → Header
  | .frame h _ _ _ => h
  | .headerFail _ => { serviceMethod := "", seq := 0, error := "" }

/-- A complete, well-formed request on the wire: the header read yields a
header and the body decodes. -/
def InEvent.wellFormed : InEvent → Bool
  | .frame _ bOk _ _ => bOk
  | .headerFail _ => false

/-- The `log.Println` / `log.Printf` calls of `server.go`, abstracted. -/
inductive LogEv where
  | readHeaderErr (e : ReadErr)
  | readArgvErr
  | writeRespErr
  | handleLog (h : Header) (argv : String)
deriving DecidableEq, Repr

/-- A response body: either a string reply (`req.replyv`) or the shared
sentinel `invalidRequest = struct{}{}`. -/
inductive Body where
  | str (s : String)
  | invalidReq
deriving DecidableEq, Repr

/-- The `request` struct (day-1 shape: `argv` is a string slot; a failed
`ReadBody` leaves it at the zero value `""`). -/
structure Request where
  h : Header
  argv : String
deriving DecidableEq, Repr

/-- Whether a failed `ReadHeader` is logged: `server.go` logs it unless
the error is `io.EOF` or `io.ErrUnexpectedEOF`. -/
def headerFailLogged : ReadErr → Bool
  | .eof => false
  | .unexpectedEOF => false
  | .other _ => true

/-- `readRequestHeader`: returns the header or the read error; logs the
error unless it is end-of-stream class. -/
def readRequestHeader : InEvent → Option Header × Option ReadErr × List LogEv
  | .frame h _ _ _ => (some h, none, [])
  | .headerFail e =>
      (none, some e, if headerFailLogged e then [LogEv.readHeaderErr e] else [])

/-- `readRequest`: on header failure, `return nil, err`.  Otherwise build
the request; a `ReadBody` failure is logged (`"rpc server: read argv
err:"`) but the function still ends in `return req, nil`, so the decode
error is dropped. -/
def readRequest (ev : InEvent) : Option Request × Option ReadErr × List LogEv :=
  match readRequestHeader ev, ev with
  | (none, e, lgs), _ => (none, e, lgs)
  | (some h, _, lgs), .frame _ bodyOk body _ =>
      (some { h := h, argv := if bodyOk then body else "" }, none,
       lgs ++ (if bodyOk then [] else [LogEv.readArgvErr]))
  | (some _, _, lgs), .headerFail _ =>
      -- unreachable: `readRequestHeader` only yields a header on a frame
      (none, none, lgs)

/-- Reply synthesized by `handleRequest`:
`fmt.Sprintf("geerpc resp %d", req.h.Seq)`. -/
def replyBody (seq : Nat) : String := "geerpc resp " ++ Nat.repr seq

/-- `sendResponse`: one `cc.Write(h, body)` under the `sending` mutex; a
write error is logged and not returned. -/
def sendResponse (h : Header) (body : Body) (writeOk : Bool) :
    (Header × Body) × List LogEv :=
  ((h, body), if writeOk then [] else [LogEv.writeRespErr])

/-- `handleRequest`: log the header and argv, synthesize the reply from
the sequence number, send it.  The response header is `req.h`, unchanged. -/
def handleRequest (req : Request) (writeOk : Bool) :
    (Header × Body) × List LogEv :=
  let w := sendResponse req.h (Body.str (replyBody req.h.seq)) writeOk
  (w.1, LogEv.handleLog req.h req.argv :: w.2)

/-- Observable outcome of `serveCodec` on one connection: all attempted
response writes (`cc.Write` calls) in order, the log lines, and whether
`cc.Close()` ran. -/
structure Out where
  resps : List (Header × Body)
  logs : List LogEv
  closedFlag : Bool
deriving DecidableEq, Repr

/-- `serveCodec`, with the spawned `handleRequest` goroutines serialized
in spawn order (the interleaving-sensitive claims use the small-step
model below instead).  An exhausted script is treated like end of
stream: the loop breaks, `wg.Wait()` returns, `cc.Close()` runs. -/
def serveCodecLoop : List InEvent → Out
  | [] => { resps := [], logs := [], closedFlag := true }
  | ev :: rest =>
    match readRequest ev with
    | (none, _, lgs) =>
        -- err != nil and req == nil: break; wg.Wait(); cc.Close()
        { resps := [], logs := lgs, closedFlag := true }
    | (some req, some e, lgs) =>
        -- err != nil, req != nil: req.h.Error = err.Error();
        -- sendResponse(cc, req.h, invalidRequest, sending); continue
        let w := sendResponse { req.h with error := e.msg } Body.invalidReq ev.writeOk
        let o := serveCodecLoop rest
        { resps := w.1 :: o.resps, logs := lgs ++ w.2 ++ o.logs,
          closedFlag := o.closedFlag }
    | (some req, none, lgs) =>
        -- wg.Add(1); go handleRequest(...)
        let w := handleRequest req ev.writeOk
        let o := serveCodecLoop rest
        { resps := w.1 :: o.resps, logs := lgs ++ w.2 ++ o.logs,
          closedFlag := o.closedFlag }

/-- Connection-level log lines of `ServeConn`. -/
inductive ConnLog where
  | optionsError
  | invalidMagic (m : Nat)
  | invalidCodecType (t : String)
deriving DecidableEq, Repr

/-- Observable outcome of `ServeConn`: every (header, body) pair written
to the peer, connection-level logs, whether `serveCodec` was entered,
and whether the connection was closed on return (the `defer`). -/
structure ConnOut where
  written : List (Header × Body)
  connLogs : List ConnLog
  served : Bool
  connClosed : Bool
deriving DecidableEq, Repr

/-- `ServeConn`: `defer conn.Close()`; decode the `Option` record
(`optDecode = none` models a JSON decode failure); check the magic
number; look up the codec constructor; then run `serveCodec`.  On every
failure path it returns — writing nothing — and the deferred close
runs. -/
def ServeConn (optDecode : Option Option') (serveInput : List InEvent) : ConnOut :=
  match optDecode with
  | none =>
      { written := [], connLogs := [ConnLog.optionsError],
        served := false, connClosed := true }
  | some opt =>
      if opt.magicNumber ≠ MagicNumber then
        { written := [], connLogs := [ConnLog.invalidMagic opt.magicNumber],
          served := false, connClosed := true }
      else if codecRegistered opt.codecType = false then
        { written := [], connLogs := [ConnLog.invalidCodecType opt.codecType],
          served := false, connClosed := true }
      else
        let o := serveCodecLoop serveInput
        { written := o.resps, connLogs := [], served := true, connClosed := true }

/-! ## Small-step operational model of `serveCodec`

One goroutine per request.  A spawned handler is `ready` until it
acquires the `sending` mutex; the `writer` field holds the handler
currently inside `sendResponse` together with a flag telling whether it
has already emitted the header part of its `cc.Write`.  The trace
records the wire-visible events: header bytes, body bytes, close. -/

/-- A response a spawned `handleRequest` goroutine will write. -/
structure Resp where
  id : Nat
  h : Header
  body : Body
deriving DecidableEq, Repr

/-- Wire-visible events of one connection. -/
inductive Ev where
  | wHeader (id : Nat) (h : Header)
  | wBody (id : Nat) (b : Body)
  | close
deriving DecidableEq, Repr

/-- Phase of the `serveCodec` read loop. -/
inductive Phase where
  | reading
  | draining
  | closed
deriving DecidableEq, Repr

/-- State of one connection: remaining input script, counter of spawned
goroutines (`nextId` doubles as the `wg.Add` count), spawned handlers
not yet holding the mutex, the handler holding the mutex (with a flag:
has it written its header part yet), the wire trace, and the loop
phase. -/
structure SState where
  input : List InEvent
  nextId : Nat
  ready : List Resp
  writer : Option (Resp × Bool)
  trace : List Ev
  phase : Phase
deriving DecidableEq, Repr

/-- Initial state of `serveCodec` on a given input script. -/
def initState (input : List InEvent) : SState :=
  { input := input, nextId := 0, ready := [], writer := none,
    trace := [], phase := Phase.reading }

/-- One interleaving step of `serveCodec` and its handler goroutines.
`read_frame` is one loop iteration that got a request and spawned a
handler (`wg.Add(1); go handleRequest`); `read_fail`/`read_end` is the
iteration whose `ReadHeader` failed (`break`, after which `wg.Wait()`
runs); `lock` is a handler acquiring the `sending` mutex; the two write
steps are the header and body parts of its `cc.Write`, after which it
releases the mutex and its `wg.Done` runs; `close_codec` is `cc.Close()`
after the join, possible only when every spawned handler has finished. -/
inductive Step : SState → SState → Prop where
  | read_frame (s : SState) (h : Header) (bOk : Bool) (body : String)
      (wOk : Bool) (rest : List InEvent) :
      s.phase = Phase.reading →
      s.input = InEvent.frame h bOk body wOk :: rest →
      Step s { s with
          input := rest, nextId := s.nextId + 1,
          ready := s.ready ++ [⟨s.nextId, h, Body.str (replyBody h.seq)⟩] }
  | read_fail (s : SState) (e : ReadErr) (rest : List InEvent) :
      s.phase = Phase.reading →
      s.input = InEvent.headerFail e :: rest →
      Step s { s with input := [], phase := Phase.draining }
  | read_end (s : SState) :
      s.phase = Phase.reading →
      s.input = [] →
      Step s { s with phase := Phase.draining }
  | lock (s : SState) (r : Resp) (pre post : List Resp) :
      s.writer = none →
      s.ready = pre ++ r :: post →
      Step s { s with ready := pre ++ post, writer := some (r, false) }
  | write_header (s : SState) (r : Resp) :
      s.writer = some (r, false) →
      Step s { s with
          writer := some (r, true),
          trace := s.trace ++ [Ev.wHeader r.id r.h] }
  | write_body (s : SState) (r : Resp) :
      s.writer = some (r, true) →
      Step s { s with
          writer := none,
          trace := s.trace ++ [Ev.wBody r.id r.body] }
  | close_codec (s : SState) :
      s.phase = Phase.draining →
      s.ready = [] →
      s.writer = none →
      Step s { s with phase := Phase.closed, trace := s.trace ++ [Ev.close] }

/-- States of an execution of `serveCodec` on a given input script. -/
inductive Reachable (input : List InEvent) : SState → Prop where
  | refl : Reachable input (initState input)
  | tail {s t : SState} : Reachable input s → Step s t → Reachable input t

/-- Is an event a body write? -/
def Ev.isBodyEv : Ev → Bool
  | .wBody _ _ => true
  | _ => false

/-- Number of completed response writes in a trace. -/
def countBody (tr : List Ev) : Nat := (tr.filter Ev.isBodyEv).length

/-- Scan a trace left to right checking that each written header is
immediately followed by the body of the same response, returning the id
of a response whose header is written but whose body is still pending,
if any; `none` (outer) means the trace is interleaved/ill-framed. -/
def scanFrom : Option Nat → List Ev → Option (Option Nat)
  | st, [] => some st
  | none, Ev.wHeader i _ :: r => scanFrom (some i) r
  | none, Ev.wBody _ _ :: _ => none
  | none, Ev.close :: r => scanFrom none r
  | some i, Ev.wBody j _ :: r => if i = j then scanFrom none r else none
  | some _, Ev.wHeader _ _ :: _ => none
  | some _, Ev.close :: _ => none

/-- The id the scan should end on, read off the state: the writer that
has emitted its header but not yet its body, if any. -/
def writerRes (s : SState) : Option Nat :=
  match s.writer with
  | some (r, true) => some r.id
  | _ => none

/-- Invariant of the operational model. -/
structure Inv (s : SState) : Prop where
  phase_closed : (Ev.close ∈ s.trace) ↔ s.phase = Phase.closed
  closed_done : s.phase = Phase.closed → s.ready = [] ∧ s.writer = none
  close_last : ∀ t1 t2, s.trace = t1 ++ Ev.close :: t2 → t2 = []
  scan : scanFrom none s.trace = some (writerRes s)
  count : s.nextId =
    countBody s.trace + s.ready.length + (if s.writer.isSome then 1 else 0)

/-- Structural-recursion version of the decimal digits of a `Nat`, used
to reason about `Nat.repr` (whose core runs on fuel). -/
def decRepr (n : Nat) : List Char :=
  if n < 10 then [Nat.digitChar n]
  else decRepr (n / 10) ++ [Nat.digitChar (n % 10)]
decreasing_by exact Nat.div_lt_self (by omega) (by omega)

end GoRpc

namespace GoRpc

/-! ## Helper lemmas: `Nat.repr` is injective -/

theorem toDigitsCore_acc (b : Nat) :
    ∀ (f n : Nat) (ds : List Char),
      Nat.toDigitsCore b f n ds = Nat.toDigitsCore b f n [] ++ ds := by
  intro f
  induction f with
  | zero => intro n ds; simp [Nat.toDigitsCore]
  | succ f ih =>
    intro n ds
    simp only [Nat.toDigitsCore]
    by_cases h : n / b = 0
    · simp [h]
    · simp only [h, if_false]
      rw [ih (n / b) (Nat.digitChar (n % b) :: ds),
        ih (n / b) [Nat.digitChar (n % b)], List.append_assoc]
      simp

theorem decRepr_eq (n : Nat) : decRepr n =
    if n < 10 then [Nat.digitChar n]
    else decRepr (n / 10) ++ [Nat.digitChar (n % 10)] := by
  rw [decRepr]

theorem toDigitsCore_eq_decRepr :
    ∀ (n f : Nat) (ds : List Char), n < f →
      Nat.toDigitsCore 10 f n ds = decRepr n ++ ds := by
  intro n
  induction n using Nat.strong_induction_on with
  | _ n ih =>
    intro f ds hf
    match f, hf with
    | f + 1, hf =>
      simp only [Nat.toDigitsCore]
      by_cases h : n / 10 = 0
      · have hn : n < 10 := (Nat.div_eq_zero_iff (by omega)).mp h
        rw [decRepr_eq n]
        simp [h, hn, Nat.mod_eq_of_lt hn]
      · have hn : ¬ n < 10 := by
          intro hlt
          exact h (Nat.div_eq_of_lt hlt)
        have hdiv : n / 10 < n := Nat.div_lt_self (by omega) (by omega)
        have hdivf : n / 10 < f := lt_of_lt_of_le hdiv (Nat.lt_succ_iff.mp hf)
        simp only [h, if_false]
        rw [ih (n / 10) hdiv f (Nat.digitChar (n % 10) :: ds) hdivf]
        rw [decRepr_eq n]
        simp [hn, List.append_assoc]

theorem toDigits_eq_decRepr (n : Nat) : Nat.toDigits 10 n = decRepr n := by
  have := toDigitsCore_eq_decRepr n (n + 1) [] (Nat.lt_succ_self n)
  simpa [Nat.toDigits] using this

theorem digitChar_inj_below_ten :
    ∀ a < 10, ∀ b < 10, Nat.digitChar a = Nat.digitChar b → a = b := by decide

theorem decRepr_ne_nil (n : Nat) : decRepr n ≠ [] := by
  rw [decRepr_eq n]
  by_cases h : n < 10 <;> simp [h]

theorem decRepr_inj : ∀ n m : Nat, decRepr n = decRepr m → n = m := by
  intro n
  induction n using Nat.strong_induction_on with
  | _ n ih =>
    intro m h
    rw [decRepr_eq n, decRepr_eq m] at h
    by_cases hn : n < 10 <;> by_cases hm : m < 10
    · simp [hn, hm] at h
      exact digitChar_inj_below_ten n hn m hm h
    · simp [hn, hm] at h
      have hlen := congrArg List.length h
      simp at hlen
      exact absurd hlen (decRepr_ne_nil (m / 10))
    · simp [hn, hm] at h
      have hlen := congrArg List.length h
      simp at hlen
      exact absurd hlen (decRepr_ne_nil (n / 10))
    · simp [hn, hm] at h
      have hrev := congrArg List.reverse h
      rw [List.reverse_append, List.reverse_append] at hrev
      simp only [List.reverse_singleton, List.singleton_append,
        List.cons.injEq] at hrev
      obtain ⟨hdigit, hrest⟩ := hrev
      have h1 : n % 10 = m % 10 :=
        digitChar_inj_below_ten _ (Nat.mod_lt _ (by omega)) _
          (Nat.mod_lt _ (by omega)) hdigit
      have h2 : n / 10 = m / 10 :=
        ih (n / 10) (Nat.div_lt_self (by omega) (by omega)) (m / 10)
          (List.reverse_injective hrest)
      omega

theorem natRepr_inj {n m : Nat} (h : Nat.repr n = Nat.repr m) : n = m := by
  apply decRepr_inj
  rw [← toDigits_eq_decRepr, ← toDigits_eq_decRepr]
  exact congrArg String.data h

theorem replyBody_injective {n m : Nat} (h : replyBody n = replyBody m) : n = m := by
  apply natRepr_inj
  have hd := congrArg String.data h
  simp only [replyBody, String.data_append] at hd
  exact String.ext (List.append_cancel_left hd)

/-! ## Helper lemmas: operational model invariant -/

theorem scanFrom_append (a b : List Ev) :
    ∀ st, scanFrom st (a ++ b) =
      (scanFrom st a).bind fun st2 => scanFrom st2 b := by
  induction a with
  | nil => intro st; simp [scanFrom]
  | cons e a ih =>
    intro st
    cases st with
    | none =>
      cases e with
      | wHeader i h => simpa [scanFrom] using ih (some i)
      | wBody i b' => simp [scanFrom]
      | close => simpa [scanFrom] using ih none
    | some i =>
      cases e with
      | wHeader j h => simp [scanFrom]
      | wBody j b' =>
        by_cases hij : i = j
        · simpa [scanFrom, hij] using ih none
        · simp [scanFrom, hij]
      | close => simp [scanFrom]

theorem append_close_last {tr : List Ev} (hc : Ev.close ∉ tr) :
    ∀ t1 t2, tr ++ [Ev.close] = t1 ++ Ev.close :: t2 → t2 = [] := by
  induction tr with
  | nil =>
    intro t1 t2 h
    cases t1 with
    | nil => simpa using h
    | cons a t1' =>
      simp only [List.nil_append, List.cons_append] at h
      obtain ⟨-, h2⟩ := List.cons.inj h
      exact absurd h2.symm (by simp)
  | cons a tr ih =>
    intro t1 t2 h
    have ha : a ≠ Ev.close := fun he => hc (by simp [he])
    have hc' : Ev.close ∉ tr := fun he => hc (by simp [he])
    cases t1 with
    | nil =>
      simp only [List.cons_append, List.nil_append] at h
      exact absurd (List.cons.inj h).1 ha
    | cons b t1' =>
      simp only [List.cons_append] at h
      exact ih hc' t1' t2 (List.cons.inj h).2

theorem append_other_no_close {tr : List Ev} {e : Ev} (he : e ≠ Ev.close)
    (hc : Ev.close ∉ tr) :
    ∀ t1 t2, ¬ tr ++ [e] = t1 ++ Ev.close :: t2 := by
  intro t1 t2 h
  have hm : Ev.close ∈ tr ++ [e] := by
    rw [h]
    simp
  rcases List.mem_append.mp hm with h1 | h1
  · exact hc h1
  · have h2 : Ev.close = e := by simpa using h1
    exact he h2.symm

theorem inv_init (input : List InEvent) : Inv (initState input) where
  phase_closed := by simp [initState]
  closed_done := by simp [initState]
  close_last := by
    intro t1 t2 h
    rw [initState] at h
    cases t1 <;> simp at h
  scan := by simp [initState, scanFrom, writerRes]
  count := by simp [initState, countBody]

theorem inv_step {s t : SState} (hi : Inv s) (hs : Step s t) : Inv t := by
  cases hs with
  | read_frame h bOk body wOk rest hp hin =>
    refine ⟨?_, ?_, ?_, ?_, ?_⟩
    · simpa using hi.phase_closed
    · intro hc
      simp at hc
      rw [hp] at hc
      exact absurd hc (by simp)
    · simpa using hi.close_last
    · simpa [writerRes] using hi.scan
    · have := hi.count
      simp only [List.length_append, List.length_singleton]
      simp only at this ⊢
      omega
  | read_fail e rest hp hin =>
    have hnc : Ev.close ∉ s.trace := fun hm => by
      have := hi.phase_closed.mp hm
      rw [hp] at this
      exact absurd this (by simp)
    refine ⟨?_, ?_, ?_, ?_, ?_⟩
    · simp [hnc]
    · intro hc
      simp at hc
    · simpa using hi.close_last
    · simpa [writerRes] using hi.scan
    · simpa using hi.count
  | read_end hp hin =>
    have hnc : Ev.close ∉ s.trace := fun hm => by
      have := hi.phase_closed.mp hm
      rw [hp] at this
      exact absurd this (by simp)
    refine ⟨?_, ?_, ?_, ?_, ?_⟩
    · simp [hnc]
    · intro hc
      simp at hc
    · simpa using hi.close_last
    · simpa [writerRes] using hi.scan
    · simpa using hi.count
  | lock r pre post hw hr =>
    refine ⟨?_, ?_, ?_, ?_, ?_⟩
    · simpa using hi.phase_closed
    · intro hc
      simp at hc
      have := (hi.closed_done hc).1
      rw [hr] at this
      simp at this
    · simpa using hi.close_last
    · have := hi.scan
      simpa [writerRes, hw] using this
    · have := hi.count
      rw [hr, hw] at this
      simp only [List.length_append, List.length_cons, Option.isSome_none,
        Bool.false_eq_true, if_false] at this
      simp only [List.length_append, Option.isSome_some, if_pos]
      omega
  | write_header r hw =>
    have hph : s.phase ≠ Phase.closed := fun hc => by
      have := (hi.closed_done hc).2
      rw [hw] at this
      exact absurd this (by simp)
    have hnc : Ev.close ∉ s.trace := fun hm => hph (hi.phase_closed.mp hm)
    refine ⟨?_, ?_, ?_, ?_, ?_⟩
    · constructor
      · intro hm
        simp at hm
        exact absurd (hi.phase_closed.mp hm) hph
      · intro hc
        simp at hc
        exact absurd hc hph
    · intro hc
      simp at hc
      exact absurd hc hph
    · intro t1 t2 ht
      simp only at ht
      exact absurd ht (append_other_no_close (by simp) hnc t1 t2)
    · have hsc := hi.scan
      simp only [writerRes, hw] at hsc
      simp only [writerRes, scanFrom_append, hsc]
      rfl
    · have := hi.count
      rw [hw] at this
      simp only [countBody, List.filter_append] at this ⊢
      simp [Ev.isBodyEv] at this ⊢
      omega
  | write_body r hw =>
    have hph : s.phase ≠ Phase.closed := fun hc => by
      have := (hi.closed_done hc).2
      rw [hw] at this
      exact absurd this (by simp)
    have hnc : Ev.close ∉ s.trace := fun hm => hph (hi.phase_closed.mp hm)
    refine ⟨?_, ?_, ?_, ?_, ?_⟩
    · constructor
      · intro hm
        simp at hm
        exact absurd (hi.phase_closed.mp hm) hph
      · intro hc
        simp at hc
        exact absurd hc hph
    · intro hc
      simp at hc
      exact absurd hc hph
    · intro t1 t2 ht
      simp only at ht
      exact absurd ht (append_other_no_close (by simp) hnc t1 t2)
    · have hsc := hi.scan
      simp only [writerRes, hw] at hsc
      simp only [writerRes, scanFrom_append, hsc]
      simp [scanFrom]
    · have := hi.count
      rw [hw] at this
      simp only [countBody, List.filter_append] at this ⊢
      simp [Ev.isBodyEv] at this ⊢
      omega
  | close_codec hp hr hw =>
    have hnc : Ev.close ∉ s.trace := fun hm => by
      have := hi.phase_closed.mp hm
      rw [hp] at this
      exact absurd this (by simp)
    refine ⟨?_, ?_, ?_, ?_, ?_⟩
    · simp
    · intro _
      simpa using ⟨hr, hw⟩
    · intro t1 t2 ht
      simp only at ht
      exact append_close_last hnc t1 t2 ht
    · have hsc := hi.scan
      simp only [writerRes, hw] at hsc
      simp only [writerRes, scanFrom_append, hsc, hw]
      rfl
    · have := hi.count
      rw [hr, hw] at this
      simp only [countBody, List.filter_append] at this ⊢
      simp [Ev.isBodyEv, hr, hw] at this ⊢
      omega

theorem reachable_inv {input : List InEvent} {s : SState}
    (h : Reachable input s) : Inv s := by
  induction h with
  | refl => exact inv_init input
  | tail _ hs ih => exact inv_step ih hs

/-! ## Helper lemmas: unfolding `serveCodecLoop` -/

theorem serveCodecLoop_frame (h : Header) (bOk : Bool) (b : String) (w : Bool)
    (rest : List InEvent) :
    serveCodecLoop (InEvent.frame h bOk b w :: rest) =
      { resps := (h, Body.str (replyBody h.seq)) :: (serveCodecLoop rest).resps,
        logs := (if bOk then [] else [LogEv.readArgvErr]) ++
          (LogEv.handleLog h (if bOk then b else "") ::
            (if w then [] else [LogEv.writeRespErr])) ++
          (serveCodecLoop rest).logs,
        closedFlag := (serveCodecLoop rest).closedFlag } := by
  simp [serveCodecLoop, readRequest, readRequestHeader, handleRequest,
    sendResponse, InEvent.writeOk]

theorem serveCodecLoop_headerFail (e : ReadErr) (rest : List InEvent) :
    serveCodecLoop (InEvent.headerFail e :: rest) =
      { resps := [],
        logs := if headerFailLogged e then [LogEv.readHeaderErr e] else [],
        closedFlag := true } := by
  simp [serveCodecLoop, readRequest, readRequestHeader]

/-! ## Claims -/

/-- C1: the spec says a request whose body fails to decode is answered
with a non-empty error header and the sentinel invalid-request body.
The code does not do this: `readRequest` logs the `ReadBody` error and
returns `(req, nil)`, so the request is handled as if it had succeeded.
At the concrete failing input below (header `Foo.Bar`/seq 7 decodes,
body fails, then the peer closes), the single response carries an empty
error and the normal synthetic reply, not the sentinel. -/
theorem readBody_failure_yields_normal_reply :
    (serveCodecLoop [InEvent.frame ⟨"Foo.Bar", 7, ""⟩ false "" true,
        InEvent.headerFail ReadErr.eof]).resps =
      [(⟨"Foo.Bar", 7, ""⟩, Body.str "geerpc resp 7")] ∧
    (∀ r ∈ (serveCodecLoop [InEvent.frame ⟨"Foo.Bar", 7, ""⟩ false "" true,
        InEvent.headerFail ReadErr.eof]).resps,
      r.1.error = "" ∧ r.2 ≠ Body.invalidReq) ∧
    (serveCodecLoop [InEvent.frame ⟨"Foo.Bar", 7, ""⟩ false "" true,
        InEvent.headerFail ReadErr.eof]).logs.count LogEv.readArgvErr = 1 := by
  refine ⟨?_, ?_, ?_⟩ <;> decide

/-- C2: in every execution of the serve loop, once `cc.Close()` has run
(the `close` event is in the trace), no event follows it, it occurred
only once, and every spawned `handleRequest` goroutine had completed its
response write (`wg.Wait()` joined all `nextId` spawned handlers before
the close). -/
theorem serveCodec_no_write_after_close
    (input : List InEvent) (s : SState) (hr : Reachable input s)
    (t1 t2 : List Ev) (ht : s.trace = t1 ++ Ev.close :: t2) :
    t2 = [] ∧ Ev.close ∉ t1 ∧ countBody s.trace = s.nextId := by
  have inv := reachable_inv hr
  have h2 : t2 = [] := inv.close_last t1 t2 ht
  have hcl : s.phase = Phase.closed := inv.phase_closed.mp (by rw [ht]; simp)
  obtain ⟨hrd, hwr⟩ := inv.closed_done hcl
  refine ⟨h2, ?_, ?_⟩
  · intro hmem
    obtain ⟨a, b, hab⟩ := List.append_of_mem hmem
    have h3 := inv.close_last a (b ++ Ev.close :: t2)
      (by rw [ht, hab]; simp)
    simp at h3
  · have hcount := inv.count
    rw [hrd, hwr] at hcount
    simp at hcount
    omega

/-- C2 witness: the one-step script "peer closes at once"; after
`read_fail` and `close_codec` the trace is `[close]` and the theorem
applies with the empty decomposition. -/
theorem serveCodec_no_write_after_close_witness :
    ([] : List Ev) = [] ∧ Ev.close ∉ ([] : List Ev) ∧
      countBody ([] ++ [Ev.close]) = 0 := by
  have h0 : Reachable [InEvent.headerFail ReadErr.eof]
      (initState [InEvent.headerFail ReadErr.eof]) := Reachable.refl
  have h1 := Reachable.tail h0
    (Step.read_fail (initState [InEvent.headerFail ReadErr.eof])
      ReadErr.eof [] rfl rfl)
  have h2 := Reachable.tail h1 (Step.close_codec _ rfl rfl rfl)
  exact serveCodec_no_write_after_close [InEvent.headerFail ReadErr.eof]
    _ h2 [] [] rfl

/-- C4: a handshake whose magic number is wrong, or whose codec type is
not a key of the registered codec map, makes `ServeConn` return without
entering `serveCodec`: nothing is written to the peer and the deferred
`conn.Close()` runs. -/
theorem handshake_failure_closes_without_writing
    (opt : Option') (inp : List InEvent)
    (hfail : opt.magicNumber ≠ MagicNumber ∨
      codecRegistered opt.codecType = false) :
    (ServeConn (some opt) inp).written = [] ∧
    (ServeConn (some opt) inp).served = false ∧
    (ServeConn (some opt) inp).connClosed = true := by
  rcases hfail with hm | hc
  · simp [ServeConn, hm]
  · by_cases hm : opt.magicNumber = MagicNumber
    · simp [ServeConn, hm, hc]
    · simp [ServeConn, hm]

/-- C4 witness: magic number 0 with the registered gob codec type. -/
theorem handshake_failure_closes_without_writing_witness :
    (ServeConn (some ⟨0, GobType⟩) []).written = [] ∧
    (ServeConn (some ⟨0, GobType⟩) []).served = false ∧
    (ServeConn (some ⟨0, GobType⟩) []).connClosed = true :=
  handshake_failure_closes_without_writing ⟨0, GobType⟩ []
    (Or.inl (by decide))

/-- C6: response writes are serialized by the `sending` mutex held for
the whole of `sendResponse`: in every reachable trace, the event right
after a response's header write is that same response's body write, so
the bytes of two responses never interleave. -/
theorem sendResponse_no_interleaving
    (input : List InEvent) (s : SState) (hr : Reachable input s)
    (t1 t2 : List Ev) (i : Nat) (hh : Header) (e : Ev)
    (ht : s.trace = t1 ++ Ev.wHeader i hh :: e :: t2) :
    ∃ b, e = Ev.wBody i b := by
  have hscan := (reachable_inv hr).scan
  rw [ht, scanFrom_append] at hscan
  cases h1 : scanFrom none t1 with
  | none =>
    rw [h1] at hscan
    simp at hscan
  | some st =>
    rw [h1] at hscan
    cases st with
    | some j =>
      simp [scanFrom] at hscan
    | none =>
      simp only [Option.bind] at hscan
      rw [show scanFrom none (Ev.wHeader i hh :: e :: t2) =
        scanFrom (some i) (e :: t2) from rfl] at hscan
      cases e with
      | wHeader j h2 => simp [scanFrom] at hscan
      | close => simp [scanFrom] at hscan
      | wBody j b =>
        by_cases hij : i = j
        · exact ⟨b, by rw [hij]⟩
        · simp [scanFrom, hij] at hscan

/-- C6 witness: one request handled to completion; in the resulting
trace the event after the header write is the matching body write. -/
theorem sendResponse_no_interleaving_witness :
    ∃ b, Ev.wBody 0 (Body.str (replyBody 1)) = Ev.wBody 0 b := by
  have h0 : Reachable [InEvent.frame ⟨"Foo.Bar", 1, ""⟩ true "x" true]
      (initState [InEvent.frame ⟨"Foo.Bar", 1, ""⟩ true "x" true]) :=
    Reachable.refl
  have h1 := Reachable.tail h0
    (Step.read_frame _ ⟨"Foo.Bar", 1, ""⟩ true "x" true [] rfl rfl)
  have h2 := Reachable.tail h1
    (Step.lock _ ⟨0, ⟨"Foo.Bar", 1, ""⟩, Body.str (replyBody 1)⟩ [] [] rfl rfl)
  have h3 := Reachable.tail h2
    (Step.write_header _ ⟨0, ⟨"Foo.Bar", 1, ""⟩, Body.str (replyBody 1)⟩ rfl)
  have h4 := Reachable.tail h3
    (Step.write_body _ ⟨0, ⟨"Foo.Bar", 1, ""⟩, Body.str (replyBody 1)⟩ rfl)
  exact sendResponse_no_interleaving _ _ h4 [] [] 0 ⟨"Foo.Bar", 1, ""⟩
    (Ev.wBody 0 (Body.str (replyBody 1))) rfl

/-- C7: for every dispatched request the stub reply body is the string
"geerpc resp " followed by the decimal sequence number, the response
error field stays empty (given the request header carried no error, as
client-built headers do), and the reply map is injective in the
sequence number, so replies to different sequences are distinguishable. -/
theorem handleRequest_reply_determined_by_seq
    (req : Request) (wOk : Bool) (he : req.h.error = "") :
    ((handleRequest req wOk).1).1.error = "" ∧
    ((handleRequest req wOk).1).2 = Body.str (replyBody req.h.seq) ∧
    (∀ n m : Nat, n ≠ m → replyBody n ≠ replyBody m) := by
  refine ⟨he, rfl, ?_⟩
  intro n m hnm hrepl
  exact hnm (replyBody_injective hrepl)

/-- C7 witness: a concrete request with sequence 2. -/
theorem handleRequest_reply_determined_by_seq_witness :
    ((handleRequest ⟨⟨"Foo.Bar", 2, ""⟩, "x"⟩ true).1).1.error = "" ∧
    ((handleRequest ⟨⟨"Foo.Bar", 2, ""⟩, "x"⟩ true).1).2 =
      Body.str (replyBody 2) ∧
    (∀ n m : Nat, n ≠ m → replyBody n ≠ replyBody m) :=
  handleRequest_reply_determined_by_seq ⟨⟨"Foo.Bar", 2, ""⟩, "x"⟩ true rfl

/-- C3: if the peer sends K complete well-formed requests and then
closes the stream (end-of-stream header read), the server attempts
exactly K response writes, the i-th response carrying the i-th request's
sequence number and service method, and then closes. -/
theorem serveCodec_K_requests_K_responses
    (frames : List InEvent) (hw : ∀ e ∈ frames, e.wellFormed = true)
    (e0 : ReadErr) (_he : e0 = ReadErr.eof ∨ e0 = ReadErr.unexpectedEOF) :
    (serveCodecLoop (frames ++ [InEvent.headerFail e0])).resps.length =
      frames.length ∧
    (serveCodecLoop (frames ++ [InEvent.headerFail e0])).resps.map
        (fun r => (r.1.seq, r.1.serviceMethod)) =
      frames.map (fun e => (e.evHeader.seq, e.evHeader.serviceMethod)) ∧
    (serveCodecLoop (frames ++ [InEvent.headerFail e0])).closedFlag = true := by
  induction frames with
  | nil => simp [serveCodecLoop_headerFail]
  | cons ev rest ih =>
    have hev := hw ev (by simp)
    have ihr := ih (fun e he2 => hw e (by simp [he2]))
    cases ev with
    | headerFail e => simp [InEvent.wellFormed] at hev
    | frame h bOk b w =>
      simp only [List.cons_append, serveCodecLoop_frame, List.length_cons,
        List.map_cons]
      exact ⟨by simp [ihr.1], by simp [InEvent.evHeader, ihr.2.1], ihr.2.2⟩

/-- C3 witness: two well-formed requests (sequences 1 and 2) then EOF. -/
theorem serveCodec_K_requests_K_responses_witness :
    (serveCodecLoop ([InEvent.frame ⟨"Foo.Bar", 1, ""⟩ true "x" true,
        InEvent.frame ⟨"Foo.Baz", 2, ""⟩ true "y" true] ++
      [InEvent.headerFail ReadErr.eof])).resps.length =
      [InEvent.frame ⟨"Foo.Bar", 1, ""⟩ true "x" true,
        InEvent.frame ⟨"Foo.Baz", 2, ""⟩ true "y" true].length ∧
    (serveCodecLoop ([InEvent.frame ⟨"Foo.Bar", 1, ""⟩ true "x" true,
        InEvent.frame ⟨"Foo.Baz", 2, ""⟩ true "y" true] ++
      [InEvent.headerFail ReadErr.eof])).resps.map
        (fun r => (r.1.seq, r.1.serviceMethod)) =
      [InEvent.frame ⟨"Foo.Bar", 1, ""⟩ true "x" true,
        InEvent.frame ⟨"Foo.Baz", 2, ""⟩ true "y" true].map
        (fun e => (e.evHeader.seq, e.evHeader.serviceMethod)) ∧
    (serveCodecLoop ([InEvent.frame ⟨"Foo.Bar", 1, ""⟩ true "x" true,
        InEvent.frame ⟨"Foo.Baz", 2, ""⟩ true "y" true] ++
      [InEvent.headerFail ReadErr.eof])).closedFlag = true :=
  serveCodec_K_requests_K_responses
    [InEvent.frame ⟨"Foo.Bar", 1, ""⟩ true "x" true,
      InEvent.frame ⟨"Foo.Baz", 2, ""⟩ true "y" true]
    (by decide) ReadErr.eof (Or.inl rfl)

/-- C5: a failed header read terminates the read loop — everything after
it on the wire is never examined, the codec is closed — and it is logged
exactly when the error is not end-of-stream class (`io.EOF`,
`io.ErrUnexpectedEOF`). -/
theorem readRequestHeader_failure_ends_loop
    (pre : List InEvent) (hp : ∀ e ∈ pre, e.isFrame = true)
    (e0 : ReadErr) (post : List InEvent) :
    serveCodecLoop (pre ++ InEvent.headerFail e0 :: post) =
      serveCodecLoop (pre ++ [InEvent.headerFail e0]) ∧
    (serveCodecLoop (pre ++ InEvent.headerFail e0 :: post)).closedFlag = true ∧
    (LogEv.readHeaderErr e0 ∈
        (serveCodecLoop (pre ++ InEvent.headerFail e0 :: post)).logs ↔
      headerFailLogged e0 = true) := by
  induction pre with
  | nil =>
    simp only [List.nil_append, serveCodecLoop_headerFail]
    refine ⟨by trivial, by trivial, ?_⟩
    by_cases hl : headerFailLogged e0 <;> simp [hl]
  | cons ev rest ih =>
    have hev := hp ev (by simp)
    have ihr := ih (fun e he2 => hp e (by simp [he2]))
    cases ev with
    | headerFail e => simp [InEvent.isFrame] at hev
    | frame h bOk b w =>
      simp only [List.cons_append, serveCodecLoop_frame]
      refine ⟨?_, ?_, ?_⟩
      · rw [ihr.1]
      · simpa using ihr.2.1
      · by_cases hb : bOk <;> by_cases hwk : w <;>
          simp [hb, hwk, ihr.2.2]

/-- C5 witness: an abnormal (logged) header-read failure followed by a
frame that is never examined. -/
theorem readRequestHeader_failure_ends_loop_witness :
    serveCodecLoop ([] ++ InEvent.headerFail (ReadErr.other "boom") ::
        [InEvent.frame ⟨"Foo.Bar", 1, ""⟩ true "x" true]) =
      serveCodecLoop ([] ++ [InEvent.headerFail (ReadErr.other "boom")]) ∧
    (serveCodecLoop ([] ++ InEvent.headerFail (ReadErr.other "boom") ::
        [InEvent.frame ⟨"Foo.Bar", 1, ""⟩ true "x" true])).closedFlag = true ∧
    (LogEv.readHeaderErr (ReadErr.other "boom") ∈
        (serveCodecLoop ([] ++ InEvent.headerFail (ReadErr.other "boom") ::
          [InEvent.frame ⟨"Foo.Bar", 1, ""⟩ true "x" true])).logs ↔
      headerFailLogged (ReadErr.other "boom") = true) :=
  readRequestHeader_failure_ends_loop [] (by decide) (ReadErr.other "boom")
    [InEvent.frame ⟨"Foo.Bar", 1, ""⟩ true "x" true]

/-- C8: a failed response write is logged and changes nothing else:
with the same wire input except one request's write failing, the
attempted responses and the closing behaviour are identical, and the
log gains exactly one write-error line.  `sendResponse` returns nothing,
so the failure reaches no caller. -/
theorem sendResponse_write_error_not_fatal
    (pre post : List InEvent) (hp : ∀ e ∈ pre, e.isFrame = true)
    (h : Header) (bOk : Bool) (b : String) :
    (serveCodecLoop (pre ++ InEvent.frame h bOk b false :: post)).resps =
      (serveCodecLoop (pre ++ InEvent.frame h bOk b true :: post)).resps ∧
    (serveCodecLoop (pre ++ InEvent.frame h bOk b false :: post)).closedFlag =
      (serveCodecLoop (pre ++ InEvent.frame h bOk b true :: post)).closedFlag ∧
    (serveCodecLoop (pre ++ InEvent.frame h bOk b false :: post)).logs.count
        LogEv.writeRespErr =
      (serveCodecLoop (pre ++ InEvent.frame h bOk b true :: post)).logs.count
        LogEv.writeRespErr + 1 := by
  induction pre with
  | nil =>
    simp only [List.nil_append, serveCodecLoop_frame]
    refine ⟨by trivial, by trivial, ?_⟩
    by_cases hb : bOk <;>
      simp [hb, List.count_append, List.count_cons]
  | cons ev rest ih =>
    have hev := hp ev (by simp)
    have ihr := ih (fun e he2 => hp e (by simp [he2]))
    cases ev with
    | headerFail e => simp [InEvent.isFrame] at hev
    | frame h2 bOk2 b2 w2 =>
      simp only [List.cons_append, serveCodecLoop_frame]
      refine ⟨?_, ?_, ?_⟩
      · simp [ihr.1]
      · simpa using ihr.2.1
      · have hc := ihr.2.2
        by_cases hb : bOk2 <;> by_cases hw2 : w2 <;>
          simp [hb, hw2, List.count_append, List.count_cons] <;> omega

/-- C8 witness: a single request whose response write fails, compared
with the same request whose write succeeds. -/
theorem sendResponse_write_error_not_fatal_witness :
    (serveCodecLoop ([] ++ InEvent.frame ⟨"Foo.Bar", 5, ""⟩ true "x" false ::
        [])).resps =
      (serveCodecLoop ([] ++ InEvent.frame ⟨"Foo.Bar", 5, ""⟩ true "x" true ::
        [])).resps ∧
    (serveCodecLoop ([] ++ InEvent.frame ⟨"Foo.Bar", 5, ""⟩ true "x" false ::
        [])).closedFlag =
      (serveCodecLoop ([] ++ InEvent.frame ⟨"Foo.Bar", 5, ""⟩ true "x" true ::
        [])).closedFlag ∧
    (serveCodecLoop ([] ++ InEvent.frame ⟨"Foo.Bar", 5, ""⟩ true "x" false ::
        [])).logs.count LogEv.writeRespErr =
      (serveCodecLoop ([] ++ InEvent.frame ⟨"Foo.Bar", 5, ""⟩ true "x" true ::
        [])).logs.count LogEv.writeRespErr + 1 :=
  sendResponse_write_error_not_fatal [] [] (by decide) ⟨"Foo.Bar", 5, ""⟩
    true "x"

/-- C9: `readRequest` never returns a request together with an error
(the body-decode error is dropped), so the inline error-response branch
of `serveCodec` never runs: no response ever carries the sentinel
invalid-request body, and — since client-built request headers carry an
empty error string — every response header the server writes has an
empty error field. -/
theorem error_response_branch_unreachable
    (input : List InEvent) (hin : ∀ ev ∈ input, ev.evHeader.error = "") :
    (∀ ev : InEvent, ((readRequest ev).1).isSome = true →
      (readRequest ev).2.1 = none) ∧
    (∀ r ∈ (serveCodecLoop input).resps, r.2 ≠ Body.invalidReq) ∧
    (∀ r ∈ (serveCodecLoop input).resps, r.1.error = "") := by
  have main : ∀ inp : List InEvent, (∀ ev ∈ inp, ev.evHeader.error = "") →
      ∀ r ∈ (serveCodecLoop inp).resps,
        r.2 ≠ Body.invalidReq ∧ r.1.error = "" := by
    intro inp
    induction inp with
    | nil =>
      intro _ r hr
      simp [serveCodecLoop] at hr
    | cons ev rest ih =>
      intro hin2 r hr
      cases ev with
      | headerFail e =>
        rw [serveCodecLoop_headerFail] at hr
        simp at hr
      | frame h bOk b w =>
        rw [serveCodecLoop_frame] at hr
        simp at hr
        rcases hr with rfl | hr
        · refine ⟨by simp, ?_⟩
          have := hin2 (InEvent.frame h bOk b w) (by simp)
          simpa [InEvent.evHeader] using this
        · exact ih (fun e he2 => hin2 e (by simp [he2])) r hr
  refine ⟨?_, fun r hr => (main input hin r hr).1,
    fun r hr => (main input hin r hr).2⟩
  intro ev
  cases ev <;> simp [readRequest, readRequestHeader]

/-- C9 witness: one ordinary request with an empty-error header. -/
theorem error_response_branch_unreachable_witness :
    (∀ ev : InEvent, ((readRequest ev).1).isSome = true →
      (readRequest ev).2.1 = none) ∧
    (∀ r ∈ (serveCodecLoop [InEvent.frame ⟨"Foo.Bar", 1, ""⟩ true "x"
        true]).resps, r.2 ≠ Body.invalidReq) ∧
    (∀ r ∈ (serveCodecLoop [InEvent.frame ⟨"Foo.Bar", 1, ""⟩ true "x"
        true]).resps, r.1.error = "") :=
  error_response_branch_unreachable
    [InEvent.frame ⟨"Foo.Bar", 1, ""⟩ true "x" true] (by decide)

/-- C10: every path of `ServeConn` — options decode failure, wrong
magic, unknown codec type, and normal serve-loop termination — ends
with the connection closed (the deferred `conn.Close()`). -/
theorem ServeConn_always_closes (od : Option Option') (inp : List InEvent) :
    (ServeConn od inp).connClosed = true := by
  cases od with
  | none => rfl
  | some opt =>
    by_cases hm : opt.magicNumber = MagicNumber
    · by_cases hc : codecRegistered opt.codecType = false
      · simp [ServeConn, hm, hc]
      · simp [ServeConn, hm, hc]
    · simp [ServeConn, hm]

end GoRpc
